import Mathlib

/-!
Verification of the in-memory storage layer of the SecureThoughtVault
repository (server/storage.ts, MemStorage) against its specification.

JavaScript `Map<number, T>` objects are embedded as association lists
`List (Nat × T)` preserving insertion order; `Map.set` replaces in place
when the key is present and appends otherwise, `Map.get` returns the first
binding, `Map.delete` returns whether the key was present and removes it.
JavaScript `Date` values are embedded as natural-number timestamps passed
in explicitly (`now`). The falsy-default idiom `x || d` of the source is
embedded by the `jsOr*` helpers below (`0`, the empty string, `null` and
`undefined` are falsy).
-/

namespace Vault

/-- `Map.get`: first binding for the key, if any. -/
def mapGet (m : List (Nat × α)) (k : Nat) : Option α :=
  (m.find? (fun p => p.1 = k)).map (fun p => p.2)

/-- `Map.set`: replace in place when the key is present, append otherwise. -/
def mapSet (m : List (Nat × α)) (k : Nat) (v : α) : List (Nat × α) :=
  if m.any (fun p => p.1 = k) then
    m.map (fun p => if p.1 = k then (k, v) else p)
  else
    m ++ [(k, v)]

/-- `Map.delete`: whether the key was present, and the map without it. -/
def mapDelete (m : List (Nat × α)) (k : Nat) : Bool × List (Nat × α) :=
  (m.any (fun p => p.1 = k), m.filter (fun p => p.1 ≠ k))

/-- JavaScript `n || d` for an optional number (`0`, `null`, `undefined` are falsy). -/
def jsOrNat (o : Option Nat) (d : Nat) : Nat :=
  match o with
  | none => d
  | some 0 => d
  | some n => n

/-- JavaScript `s || d` for an optional string (the empty string is falsy). -/
def jsOrStr (o : Option String) (d : String) : String :=
  match o with
  | none => d
  | some s => if s = "" then d else s

/-- JavaScript `s || null` for an optional string. -/
def jsOrNullStr (o : Option String) : Option String :=
  match o with
  | none => none
  | some s => if s = "" then none else some s

/-- JavaScript `n || null` for an optional number. -/
def jsOrNullNat (o : Option Nat) : Option Nat :=
  match o with
  | none => none
  | some 0 => none
  | some n => some n

/-- Row type of the `users` table (shared/schema.ts). -/
structure User where
  id : Nat
  username : String
  password : String
  displayName : Option String
  email : Option String
deriving DecidableEq

/-- Insert shape for User (insertUserSchema). -/
structure InsertUser where
  username : String := ""
  password : String := ""
  displayName : Option String := none
  email : Option String := none
deriving DecidableEq

/-- Row type of the `categories` table. -/
structure Category where
  id : Nat
  userId : Option Nat
  name : String
deriving DecidableEq

/-- Insert shape for Category (insertCategorySchema). -/
structure InsertCategory where
  userId : Option Nat := none
  name : String := ""
deriving DecidableEq

/-- Row type of the `entries` table. -/
structure Entry where
  id : Nat
  userId : Nat
  title : String
  content : Option String
  mediaUrl : Option String
  type : String
  visibility : String
  categoryId : Option Nat
  metadata : Option String
  createdAt : Nat
deriving DecidableEq

/-- Insert shape for Entry (insertEntrySchema). -/
structure InsertEntry where
  userId : Option Nat := none
  title : String := ""
  content : Option String := none
  mediaUrl : Option String := none
  type : String := "text"
  visibility : Option String := none
  categoryId : Option Nat := none
  metadata : Option String := none
deriving DecidableEq

/-- `Partial<Entry>`: every field optionally present; a present field overrides. -/
structure EntryPatch where
  id : Option Nat := none
  userId : Option Nat := none
  title : Option String := none
  content : Option (Option String) := none
  mediaUrl : Option (Option String) := none
  type : Option String := none
  visibility : Option String := none
  categoryId : Option (Option Nat) := none
  metadata : Option (Option String) := none
  createdAt : Option Nat := none
deriving DecidableEq

/-- Row type of the `contacts` table. -/
structure Contact where
  id : Nat
  userId : Option Nat
  name : String
  phoneNumber : Option String
  email : Option String
deriving DecidableEq

/-- Insert shape for Contact (insertContactSchema). -/
structure InsertContact where
  userId : Option Nat := none
  name : String := ""
  phoneNumber : Option String := none
  email : Option String := none
deriving DecidableEq

/-- `Partial<Contact>`. -/
structure ContactPatch where
  id : Option Nat := none
  userId : Option (Option Nat) := none
  name : Option String := none
  phoneNumber : Option (Option String) := none
  email : Option (Option String) := none
deriving DecidableEq

/-- Row type of the `schedules` table. -/
structure Schedule where
  id : Nat
  entryId : Nat
  contactId : Nat
  deliveryDate : Nat
  status : String
  reminderEnabled : Option Bool
  createdAt : Nat
deriving DecidableEq

/-- Insert shape for Schedule (insertScheduleSchema). -/
structure InsertSchedule where
  entryId : Nat := 0
  contactId : Nat := 0
  deliveryDate : Nat := 0
  reminderEnabled : Option Bool := none
deriving DecidableEq

/-- `Partial<Schedule>`. -/
structure SchedulePatch where
  id : Option Nat := none
  entryId : Option Nat := none
  contactId : Option Nat := none
  deliveryDate : Option Nat := none
  status : Option String := none
  reminderEnabled : Option (Option Bool) := none
  createdAt : Option Nat := none
deriving DecidableEq

/-- The read-side view: an Entry with its optional Schedule, itself with an
optional Contact (EntryWithSchedule in shared/schema.ts). -/
structure ScheduleWithContact where
  schedule : Schedule
  contact : Option Contact
deriving DecidableEq

/-- One record of the denormalized join produced by the query composer. -/
structure EntryWithSchedule where
  entry : Entry
  schedule : Option ScheduleWithContact
deriving DecidableEq

/-- The whole state of `MemStorage`: five maps and five id counters. -/
structure MemStorage where
  users : List (Nat × User)
  categories : List (Nat × Category)
  entries : List (Nat × Entry)
  contacts : List (Nat × Contact)
  schedules : List (Nat × Schedule)
  userIdCounter : Nat
  categoryIdCounter : Nat
  entryIdCounter : Nat
  contactIdCounter : Nat
  scheduleIdCounter : Nat
deriving DecidableEq

/-- `MemStorage.createUser`. -/
def createUser (s : MemStorage) (iu : InsertUser) : User × MemStorage :=
  let id := s.userIdCounter
  let user : User :=
    { id := id
      username := iu.username
      password := iu.password
      displayName := jsOrNullStr iu.displayName
      email := jsOrNullStr iu.email }
  (user, { s with users := mapSet s.users id user, userIdCounter := id + 1 })

/-- `MemStorage.createCategory` (plain spread of the insert shape). -/
def createCategory (s : MemStorage) (ic : InsertCategory) : Category × MemStorage :=
  let id := s.categoryIdCounter
  let category : Category := { id := id, userId := ic.userId, name := ic.name }
  (category, { s with categories := mapSet s.categories id category,
                      categoryIdCounter := id + 1 })

/-- `MemStorage.deleteCategory`. -/
def deleteCategory (s : MemStorage) (id : Nat) : Bool × MemStorage :=
  let r := mapDelete s.categories id
  (r.1, { s with categories := r.2 })

/-- `MemStorage.getCategoryById`. -/
def getCategoryById (s : MemStorage) (id : Nat) : Option Category :=
  mapGet s.categories id

/-- `MemStorage.getEntries`: values in insertion order, filtered by owner. -/
def getEntries (s : MemStorage) (userId : Nat) : List Entry :=
  (s.entries.map (fun p => p.2)).filter (fun e => e.userId = userId)

/-- `MemStorage.getEntryById`. -/
def getEntryById (s : MemStorage) (id : Nat) : Option Entry :=
  mapGet s.entries id

/-- `MemStorage.createEntry`: assigns the next entry id, applies the
falsy-defaulting of the source for every optional field. -/
def createEntry (s : MemStorage) (ie : InsertEntry) (now : Nat) : Entry × MemStorage :=
  let id := s.entryIdCounter
  let entry : Entry :=
    { id := id
      userId := jsOrNat ie.userId 1
      title := ie.title
      content := jsOrNullStr ie.content
      mediaUrl := jsOrNullStr ie.mediaUrl
      type := ie.type
      visibility := jsOrStr ie.visibility "private"
      categoryId := jsOrNullNat ie.categoryId
      metadata := jsOrNullStr ie.metadata
      createdAt := now }
  (entry, { s with entries := mapSet s.entries id entry, entryIdCounter := id + 1 })

/-- The spread `{...entry, ...patch}`: present patch fields override. -/
def mergeEntry (e : Entry) (p : EntryPatch) : Entry :=
  { id := p.id.getD e.id
    userId := p.userId.getD e.userId
    title := p.title.getD e.title
    content := p.content.getD e.content
    mediaUrl := p.mediaUrl.getD e.mediaUrl
    type := p.type.getD e.type
    visibility := p.visibility.getD e.visibility
    categoryId := p.categoryId.getD e.categoryId
    metadata := p.metadata.getD e.metadata
    createdAt := p.createdAt.getD e.createdAt }

/-- `MemStorage.updateEntry`: shallow merge over the existing record. -/
def updateEntry (s : MemStorage) (id : Nat) (p : EntryPatch) :
    Option Entry × MemStorage :=
  match mapGet s.entries id with
  | none => (none, s)
  | some e =>
      let updated := mergeEntry e p
      (some updated, { s with entries := mapSet s.entries id updated })

/-- `MemStorage.deleteEntry`: first deletes every schedule whose `entryId`
matches (keyed by the schedule value's own `id` field, as the source does),
then deletes the entry, returning whether the entry existed. -/
def deleteEntry (s : MemStorage) (id : Nat) : Bool × MemStorage :=
  let matching := (s.schedules.map (fun p => p.2)).filter (fun sch => sch.entryId = id)
  let schedules := matching.foldl (fun m sch => m.filter (fun p => p.1 ≠ sch.id)) s.schedules
  let r := mapDelete s.entries id
  (r.1, { s with schedules := schedules, entries := r.2 })

/-- `MemStorage.getContactById`. -/
def getContactById (s : MemStorage) (id : Nat) : Option Contact :=
  mapGet s.contacts id

/-- `MemStorage.createContact` (plain spread of the insert shape). -/
def createContact (s : MemStorage) (ic : InsertContact) : Contact × MemStorage :=
  let id := s.contactIdCounter
  let contact : Contact :=
    { id := id, userId := ic.userId, name := ic.name
      phoneNumber := ic.phoneNumber, email := ic.email }
  (contact, { s with contacts := mapSet s.contacts id contact,
                     contactIdCounter := id + 1 })

/-- The spread `{...contact, ...patch}`. -/
def mergeContact (c : Contact) (p : ContactPatch) : Contact :=
  { id := p.id.getD c.id
    userId := p.userId.getD c.userId
    name := p.name.getD c.name
    phoneNumber := p.phoneNumber.getD c.phoneNumber
    email := p.email.getD c.email }

/-- `MemStorage.updateContact`. -/
def updateContact (s : MemStorage) (id : Nat) (p : ContactPatch) :
    Option Contact × MemStorage :=
  match mapGet s.contacts id with
  | none => (none, s)
  | some c =>
      let updated := mergeContact c p
      (some updated, { s with contacts := mapSet s.contacts id updated })

/-- `MemStorage.deleteContact`. -/
def deleteContact (s : MemStorage) (id : Nat) : Bool × MemStorage :=
  let r := mapDelete s.contacts id
  (r.1, { s with contacts := r.2 })

/-- `MemStorage.getScheduleById`. -/
def getScheduleById (s : MemStorage) (id : Nat) : Option Schedule :=
  mapGet s.schedules id

/-- `MemStorage.getSchedulesByEntryId`: first schedule value whose `entryId`
matches, in insertion order. -/
def getSchedulesByEntryId (s : MemStorage) (entryId : Nat) : Option Schedule :=
  (s.schedules.map (fun p => p.2)).find? (fun sch => sch.entryId = entryId)

/-- `MemStorage.createSchedule`: stores the new schedule, then sets the
referenced entry's visibility to "scheduled" when that entry exists. -/
def createSchedule (s : MemStorage) (isch : InsertSchedule) (now : Nat) :
    Schedule × MemStorage :=
  let id := s.scheduleIdCounter
  let schedule : Schedule :=
    { id := id
      entryId := isch.entryId
      contactId := isch.contactId
      deliveryDate := isch.deliveryDate
      reminderEnabled := isch.reminderEnabled
      status := "pending"
      createdAt := now }
  let s1 : MemStorage :=
    { s with schedules := mapSet s.schedules id schedule, scheduleIdCounter := id + 1 }
  match getEntryById s1 isch.entryId with
  | none => (schedule, s1)
  | some entry => (schedule, (updateEntry s1 entry.id { visibility := some "scheduled" }).2)

/-- The spread `{...schedule, ...patch}`. -/
def mergeSchedule (sch : Schedule) (p : SchedulePatch) : Schedule :=
  { id := p.id.getD sch.id
    entryId := p.entryId.getD sch.entryId
    contactId := p.contactId.getD sch.contactId
    deliveryDate := p.deliveryDate.getD sch.deliveryDate
    status := p.status.getD sch.status
    reminderEnabled := p.reminderEnabled.getD sch.reminderEnabled
    createdAt := p.createdAt.getD sch.createdAt }

/-- `MemStorage.updateSchedule`. -/
def updateSchedule (s : MemStorage) (id : Nat) (p : SchedulePatch) :
    Option Schedule × MemStorage :=
  match mapGet s.schedules id with
  | none => (none, s)
  | some sch =>
      let updated := mergeSchedule sch p
      (some updated, { s with schedules := mapSet s.schedules id updated })

/-- `MemStorage.deleteSchedule`: when the schedule exists, first resets the
referenced entry's visibility to "private" (when that entry exists), then
deletes the schedule record. -/
def deleteSchedule (s : MemStorage) (id : Nat) : Bool × MemStorage :=
  let s1 : MemStorage :=
    match mapGet s.schedules id with
    | none => s
    | some sch =>
        match getEntryById s sch.entryId with
        | none => s
        | some entry => (updateEntry s entry.id { visibility := some "private" }).2
  let r := mapDelete s1.schedules id
  (r.1, { s1 with schedules := r.2 })

/-- One record of `getEntriesWithSchedules`: the schedule found for the
entry's id, carrying the contact looked up by the schedule's `contactId`
(absent when no such contact exists). -/
def composeEntry (s : MemStorage) (e : Entry) : EntryWithSchedule :=
  match getSchedulesByEntryId s e.id with
  | none => { entry := e, schedule := none }
  | some sch =>
      { entry := e
        schedule := some { schedule := sch, contact := getContactById s sch.contactId } }

/-- `MemStorage.getEntriesWithSchedules`: the source's loop pushing one view
record per entry, embedded as a left fold appending to the result. -/
def getEntriesWithSchedules (s : MemStorage) (userId : Nat) : List EntryWithSchedule :=
  (getEntries s userId).foldl (fun result e => result ++ [composeEntry s e]) []

/-- `MemStorage.getScheduledEntries`: keep only records whose schedule is present. -/
def getScheduledEntries (s : MemStorage) (userId : Nat) : List EntryWithSchedule :=
  (getEntriesWithSchedules s userId).filter (fun r => r.schedule.isSome)

/-- The empty store with every counter at 1, before the constructor seeds. -/
def emptyStore : MemStorage :=
  { users := [], categories := [], entries := [], contacts := [], schedules := []
    userIdCounter := 1, categoryIdCounter := 1, entryIdCounter := 1
    contactIdCounter := 1, scheduleIdCounter := 1 }

/-- The store as left by the `MemStorage` constructor: one demo user, three
categories, three contacts. -/
def seedStore : MemStorage :=
  let s1 := (createUser emptyStore
    { username := "demo", password := "password"
      displayName := some "Demo User", email := some "demo@example.com" }).2
  let s2 := (createCategory s1 { userId := some 1, name := "Personal" }).2
  let s3 := (createCategory s2 { userId := some 1, name := "Work" }).2
  let s4 := (createCategory s3 { userId := some 1, name := "Ideas" }).2
  let s5 := (createContact s4
    { userId := some 1, name := "Myself", phoneNumber := some ""
      email := some "demo@example.com" }).2
  let s6 := (createContact s5
    { userId := some 1, name := "Mom", phoneNumber := some "555-123-4567"
      email := some "mom@example.com" }).2
  (createContact s6
    { userId := some 1, name := "Partner", phoneNumber := some "555-987-6543"
      email := some "partner@example.com" }).2

/-- One mutating call of the `IStorage` interface (the interface exposes
create for users; create and delete for categories; create, update and
delete for entries, contacts and schedules). Timestamps taken by the source
from the wall clock are explicit arguments. -/
inductive StoreOp where
  | createUserOp (iu : InsertUser)
  | createCategoryOp (ic : InsertCategory)
  | deleteCategoryOp (id : Nat)
  | createEntryOp (ie : InsertEntry) (now : Nat)
  | updateEntryOp (id : Nat) (p : EntryPatch)
  | deleteEntryOp (id : Nat)
  | createContactOp (ic : InsertContact)
  | updateContactOp (id : Nat) (p : ContactPatch)
  | deleteContactOp (id : Nat)
  | createScheduleOp (isch : InsertSchedule) (now : Nat)
  | updateScheduleOp (id : Nat) (p : SchedulePatch)
  | deleteScheduleOp (id : Nat)
deriving DecidableEq

/-- The state transition of one interface call. -/
def applyOp (s : MemStorage) : StoreOp → MemStorage
  | .createUserOp iu => (createUser s iu).2
  | .createCategoryOp ic => (createCategory s ic).2
  | .deleteCategoryOp id => (deleteCategory s id).2
  | .createEntryOp ie now => (createEntry s ie now).2
  | .updateEntryOp id p => (updateEntry s id p).2
  | .deleteEntryOp id => (deleteEntry s id).2
  | .createContactOp ic => (createContact s ic).2
  | .updateContactOp id p => (updateContact s id p).2
  | .deleteContactOp id => (deleteContact s id).2
  | .createScheduleOp isch now => (createSchedule s isch now).2
  | .updateScheduleOp id p => (updateSchedule s id p).2
  | .deleteScheduleOp id => (deleteSchedule s id).2

/-- Run a sequence of interface calls; states reachable from `seedStore`
are exactly `applyOps seedStore ops`. -/
def applyOps (s : MemStorage) (ops : List StoreOp) : MemStorage :=
  ops.foldl applyOp s

/-- The ids handed out by the create calls of a run, one list per entity type. -/
structure CreatedIds where
  userIds : List Nat
  categoryIds : List Nat
  entryIds : List Nat
  contactIds : List Nat
  scheduleIds : List Nat
deriving DecidableEq

/-- Run a sequence of interface calls, collecting the id of every record
returned by a create call, per entity type. -/
def runOps (s : MemStorage) : List StoreOp → CreatedIds × MemStorage
  | [] => (⟨[], [], [], [], []⟩, s)
  | op :: rest =>
      match op with
      | .createUserOp iu =>
          let r := createUser s iu
          let t := runOps r.2 rest
          ({ t.1 with userIds := r.1.id :: t.1.userIds }, t.2)
      | .createCategoryOp ic =>
          let r := createCategory s ic
          let t := runOps r.2 rest
          ({ t.1 with categoryIds := r.1.id :: t.1.categoryIds }, t.2)
      | .createEntryOp ie now =>
          let r := createEntry s ie now
          let t := runOps r.2 rest
          ({ t.1 with entryIds := r.1.id :: t.1.entryIds }, t.2)
      | .createContactOp ic =>
          let r := createContact s ic
          let t := runOps r.2 rest
          ({ t.1 with contactIds := r.1.id :: t.1.contactIds }, t.2)
      | .createScheduleOp isch now =>
          let r := createSchedule s isch now
          let t := runOps r.2 rest
          ({ t.1 with scheduleIds := r.1.id :: t.1.scheduleIds }, t.2)
      | other => runOps (applyOp s other) rest

/-- The visibility-sync condition of invariant I2: an entry is "scheduled"
exactly when some schedule references it. -/
abbrev entrySync (s : MemStorage) : Prop :=
  ∀ p ∈ s.entries, (p.2.visibility = "scheduled" ↔ ∃ q ∈ s.schedules, q.2.entryId = p.2.id)

/-- Reachability restricted to calls that respect the intended discipline:
entry visibility is never set to "scheduled" directly (neither at creation
nor by patch), record ids are never patched, a schedule's `entryId` is never
patched, and a schedule is only created for an existing entry that has no
schedule yet. -/
inductive GoodReach : MemStorage → Prop where
  | seed : GoodReach seedStore
  | stepCreateUser {s} (iu : InsertUser) :
      GoodReach s → GoodReach (createUser s iu).2
  | stepCreateCategory {s} (ic : InsertCategory) :
      GoodReach s → GoodReach (createCategory s ic).2
  | stepDeleteCategory {s} (id : Nat) :
      GoodReach s → GoodReach (deleteCategory s id).2
  | stepCreateEntry {s} (ie : InsertEntry) (now : Nat) :
      GoodReach s → jsOrStr ie.visibility "private" ≠ "scheduled" →
      GoodReach (createEntry s ie now).2
  | stepUpdateEntry {s} (id : Nat) (p : EntryPatch) :
      GoodReach s → p.id = none → p.visibility = none →
      GoodReach (updateEntry s id p).2
  | stepDeleteEntry {s} (id : Nat) :
      GoodReach s → GoodReach (deleteEntry s id).2
  | stepCreateContact {s} (ic : InsertContact) :
      GoodReach s → GoodReach (createContact s ic).2
  | stepUpdateContact {s} (id : Nat) (p : ContactPatch) :
      GoodReach s → GoodReach (updateContact s id p).2
  | stepDeleteContact {s} (id : Nat) :
      GoodReach s → GoodReach (deleteContact s id).2
  | stepCreateSchedule {s} (isch : InsertSchedule) (now : Nat) :
      GoodReach s → (getEntryById s isch.entryId).isSome →
      getSchedulesByEntryId s isch.entryId = none →
      GoodReach (createSchedule s isch now).2
  | stepUpdateSchedule {s} (id : Nat) (p : SchedulePatch) :
      GoodReach s → p.id = none → p.entryId = none →
      GoodReach (updateSchedule s id p).2
  | stepDeleteSchedule {s} (id : Nat) :
      GoodReach s → GoodReach (deleteSchedule s id).2

/-- The inductive invariant of the entry/schedule subsystem: keys agree with
record ids and are below the counters and duplicate-free, every schedule
references an existing entry, no two schedules reference the same entry,
and visibility is synchronized with schedule existence. -/
structure Inv (s : MemStorage) : Prop where
  entryKeys : ∀ p ∈ s.entries, p.2.id = p.1 ∧ p.1 < s.entryIdCounter
  entryNodup : (s.entries.map (fun p => p.1)).Nodup
  schedKeys : ∀ p ∈ s.schedules, p.2.id = p.1 ∧ p.1 < s.scheduleIdCounter
  schedNodup : (s.schedules.map (fun p => p.1)).Nodup
  schedEntry : ∀ p ∈ s.schedules, (mapGet s.entries p.2.entryId).isSome
  schedOne : (s.schedules.map (fun p => p.2.entryId)).Nodup
  sync : entrySync s

/-! ### Association-map lemmas -/

theorem mapGet_eq_none_iff {m : List (Nat × α)} {k : Nat} :
    mapGet m k = none ↔ ∀ p ∈ m, p.1 ≠ k := by
  simp [mapGet, Option.map_eq_none', List.find?_eq_none]

theorem mapGet_mem {m : List (Nat × α)} {k : Nat} {v : α}
    (h : mapGet m k = some v) : (k, v) ∈ m := by
  rw [mapGet, Option.map_eq_some'] at h
  obtain ⟨p, hp, hv⟩ := h
  have hk := List.find?_some hp
  have hmem := List.mem_of_find?_eq_some hp
  simp only [decide_eq_true_eq] at hk
  have : p = (k, v) := by
    cases p with
    | mk a b => simp_all
  rwa [this] at hmem

theorem mapGet_isSome_of_mem {m : List (Nat × α)} {p : Nat × α}
    (h : p ∈ m) : (mapGet m p.1).isSome := by
  rw [mapGet]
  rcases hf : m.find? (fun q => q.1 = p.1) with _ | q
  · rw [List.find?_eq_none] at hf
    exact absurd (by simp) (hf p h)
  · rw [hf]
    rfl

theorem mapGet_of_mem_nodup {m : List (Nat × α)} {p : Nat × α}
    (hnd : (m.map (fun q => q.1)).Nodup) (h : p ∈ m) :
    mapGet m p.1 = some p.2 := by
  induction m with
  | nil => cases h
  | cons q rest ih =>
      simp only [List.map_cons, List.nodup_cons] at hnd
      rcases List.mem_cons.mp h with h | h
      · subst h
        rw [mapGet, List.find?_cons_of_pos _ (by simp)]
        rfl
      · have hne : ¬ q.1 = p.1 := by
          intro he
          refine hnd.1 ?_
          rw [he]
          exact List.mem_map_of_mem (fun r => r.1) h
        rw [mapGet, List.find?_cons_of_neg _ (by simp [hne])]
        exact ih hnd.2 h

theorem findReplace_of_any {m : List (Nat × α)} {k : Nat} (v : α)
    (h : m.any (fun p => p.1 = k) = true) :
    (m.map (fun p => if p.1 = k then (k, v) else p)).find? (fun p => p.1 = k)
      = some (k, v) := by
  induction m with
  | nil => simp at h
  | cons q rest ih =>
      simp only [List.map_cons]
      by_cases hq : q.1 = k
      · rw [if_pos hq, List.find?_cons_of_pos _ (by simp)]
      · rw [if_neg hq, List.find?_cons_of_neg _ (by simp [hq])]
        simp only [List.any_cons, Bool.or_eq_true, decide_eq_true_eq] at h
        exact ih (h.resolve_left hq)

theorem findReplace_of_ne {m : List (Nat × α)} {k x : Nat} (v : α)
    (hx : x ≠ k) :
    (m.map (fun p => if p.1 = k then (k, v) else p)).find? (fun p => p.1 = x)
      = m.find? (fun p => p.1 = x) := by
  have hkx : ¬ k = x := fun he => hx he.symm
  induction m with
  | nil => rfl
  | cons q rest ih =>
      simp only [List.map_cons]
      by_cases hq : q.1 = k
      · have hqx : ¬ q.1 = x := by rw [hq]; exact hkx
        rw [if_pos hq, List.find?_cons_of_neg _ (by simp [hkx]),
          List.find?_cons_of_neg _ (by simp [hqx])]
        exact ih
      · by_cases hqx : q.1 = x
        · rw [if_neg hq, List.find?_cons_of_pos _ (by simp [hqx]),
            List.find?_cons_of_pos _ (by simp [hqx])]
        · rw [if_neg hq, List.find?_cons_of_neg _ (by simp [hqx]),
            List.find?_cons_of_neg _ (by simp [hqx])]
          exact ih

theorem findAppend_self {m : List (Nat × α)} {k : Nat} (v : α)
    (h : ∀ p ∈ m, p.1 ≠ k) :
    (m ++ [(k, v)]).find? (fun p => p.1 = k) = some (k, v) := by
  induction m with
  | nil => rw [List.nil_append, List.find?_cons_of_pos _ (by simp)]
  | cons q rest ih =>
      have hq : ¬ q.1 = k := h q (List.mem_cons_self q rest)
      rw [List.cons_append, List.find?_cons_of_neg _ (by simp [hq])]
      exact ih (fun p hp => h p (List.mem_cons_of_mem q hp))

theorem findAppend_of_ne {m : List (Nat × α)} {k x : Nat} (v : α)
    (hx : x ≠ k) :
    (m ++ [(k, v)]).find? (fun p => p.1 = x) = m.find? (fun p => p.1 = x) := by
  have hkx : ¬ k = x := fun he => hx he.symm
  induction m with
  | nil =>
      rw [List.nil_append, List.find?_cons_of_neg _ (by simp [hkx])]
  | cons q rest ih =>
      by_cases hqx : q.1 = x
      · rw [List.cons_append, List.find?_cons_of_pos _ (by simp [hqx]),
          List.find?_cons_of_pos _ (by simp [hqx])]
      · rw [List.cons_append, List.find?_cons_of_neg _ (by simp [hqx]),
          List.find?_cons_of_neg _ (by simp [hqx])]
        exact ih

theorem mapGet_mapSet (m : List (Nat × α)) (k : Nat) (v : α) (x : Nat) :
    mapGet (mapSet m k v) x = if x = k then some v else mapGet m x := by
  unfold mapSet
  by_cases hany : m.any (fun p => p.1 = k) = true
  · rw [if_pos hany]
    by_cases hx : x = k
    · subst hx
      simp [mapGet, findReplace_of_any v hany]
    · simp [mapGet, findReplace_of_ne v hx, hx]
  · rw [if_neg hany]
    have hall : ∀ p ∈ m, p.1 ≠ k := by
      intro p hp he
      exact hany (List.any_eq_true.mpr ⟨p, hp, by simp [he]⟩)
    by_cases hx : x = k
    · subst hx
      simp [mapGet, findAppend_self v hall]
    · simp [mapGet, findAppend_of_ne v hx, hx]

theorem mem_mapSet_elim {m : List (Nat × α)} {k : Nat} {v : α} {p : Nat × α}
    (h : p ∈ mapSet m k v) : p = (k, v) ∨ (p ∈ m ∧ p.1 ≠ k) := by
  unfold mapSet at h
  by_cases hany : m.any (fun q => q.1 = k) = true
  · rw [if_pos hany] at h
    obtain ⟨q, hq, he⟩ := List.mem_map.mp h
    by_cases hqk : q.1 = k
    · left; simp [hqk] at he; exact he.symm
    · right; rw [if_neg hqk] at he; exact ⟨he ▸ hq, he ▸ hqk⟩
  · rw [if_neg hany] at h
    rcases List.mem_append.mp h with h | h
    · right
      refine ⟨h, fun he => hany ?_⟩
      exact List.any_eq_true.mpr ⟨p, h, by simp [he]⟩
    · left; simpa using h

theorem mem_mapSet_of_mem {m : List (Nat × α)} {k : Nat} {v : α} {p : Nat × α}
    (h : p ∈ m) (hne : p.1 ≠ k) : p ∈ mapSet m k v := by
  unfold mapSet
  by_cases hany : m.any (fun q => q.1 = k) = true
  · rw [if_pos hany]
    exact List.mem_map.mpr ⟨p, h, by simp [hne]⟩
  · rw [if_neg hany]
    exact List.mem_append.mpr (Or.inl h)

theorem self_mem_mapSet {m : List (Nat × α)} {k : Nat} {v : α} :
    (k, v) ∈ mapSet m k v := by
  unfold mapSet
  by_cases hany : m.any (fun q => q.1 = k) = true
  · rw [if_pos hany]
    obtain ⟨q, hq, he⟩ := List.any_eq_true.mp hany
    simp only [decide_eq_true_eq] at he
    exact List.mem_map.mpr ⟨q, hq, by simp [he]⟩
  · rw [if_neg hany]
    exact List.mem_append.mpr (Or.inr (by simp))

theorem keys_mapSet_replace {m : List (Nat × α)} {k : Nat} {v : α}
    (hany : m.any (fun p => p.1 = k) = true) :
    (mapSet m k v).map (fun p => p.1) = m.map (fun p => p.1) := by
  unfold mapSet
  rw [if_pos hany, List.map_map]
  refine List.map_congr_left ?_
  intro p _
  by_cases hp : p.1 = k <;> simp [hp]

theorem keys_mapSet_append {m : List (Nat × α)} {k : Nat} {v : α}
    (hany : ¬ m.any (fun p => p.1 = k) = true) :
    (mapSet m k v).map (fun p => p.1) = m.map (fun p => p.1) ++ [k] := by
  unfold mapSet
  rw [if_neg hany, List.map_append]
  rfl

theorem keys_mapSet_nodup {m : List (Nat × α)} {k : Nat} {v : α}
    (hnd : (m.map (fun p => p.1)).Nodup) :
    ((mapSet m k v).map (fun p => p.1)).Nodup := by
  by_cases hany : m.any (fun p => p.1 = k) = true
  · rwa [keys_mapSet_replace hany]
  · rw [keys_mapSet_append hany]
    have hk : k ∉ m.map (fun p => p.1) := by
      intro hmem
      obtain ⟨p, hp, he⟩ := List.mem_map.mp hmem
      exact hany (List.any_eq_true.mpr ⟨p, hp, by simp [he]⟩)
    simp [List.nodup_append, hnd, hk]

theorem mapGet_filter_ne {m : List (Nat × α)} {k x : Nat} (hx : x ≠ k) :
    mapGet (m.filter (fun p => p.1 ≠ k)) x = mapGet m x := by
  induction m with
  | nil => rfl
  | cons q rest ih =>
      rw [List.filter_cons]
      by_cases hq : q.1 = k
      · have hqx : ¬ q.1 = x := by rw [hq]; exact fun he => hx he.symm
        rw [if_neg (by simp [hq])]
        rw [ih]
        unfold mapGet
        rw [List.find?_cons_of_neg _ (by simp [hqx])]
      · rw [if_pos (by simp [hq])]
        by_cases hqx : q.1 = x
        · unfold mapGet
          rw [List.find?_cons_of_pos _ (by simp [hqx]),
            List.find?_cons_of_pos _ (by simp [hqx])]
        · unfold mapGet
          rw [List.find?_cons_of_neg _ (by simp [hqx]),
            List.find?_cons_of_neg _ (by simp [hqx])]
          exact ih

theorem mem_foldlDel {l : List Schedule} :
    ∀ {m : List (Nat × Schedule)} {x : Nat × Schedule},
      (x ∈ l.foldl (fun m sch => m.filter (fun p => p.1 ≠ sch.id)) m ↔
        x ∈ m ∧ ∀ sch ∈ l, x.1 ≠ sch.id) := by
  induction l with
  | nil => simp
  | cons sch rest ih =>
      intro m x
      simp only [List.foldl_cons]
      rw [ih]
      simp only [List.mem_filter, List.mem_cons, decide_eq_true_eq]
      constructor
      · rintro ⟨⟨hm, hne⟩, hall⟩
        exact ⟨hm, fun s hs => hs.elim (fun h => h ▸ hne) (hall s)⟩
      · rintro ⟨hm, hall⟩
        exact ⟨⟨hm, hall sch (Or.inl rfl)⟩, fun s hs => hall s (Or.inr hs)⟩

theorem foldlDel_sublist {l : List Schedule} :
    ∀ {m : List (Nat × Schedule)},
      (l.foldl (fun m sch => m.filter (fun p => p.1 ≠ sch.id)) m).Sublist m := by
  induction l with
  | nil => intro m; simp
  | cons sch rest ih =>
      intro m
      simp only [List.foldl_cons]
      exact ih.trans (List.filter_sublist m)

theorem mapGet_foldlDel_of_ne {l : List Schedule} :
    ∀ {m : List (Nat × Schedule)} {x : Nat},
      (∀ sch ∈ l, x ≠ sch.id) →
      mapGet (l.foldl (fun m sch => m.filter (fun p => p.1 ≠ sch.id)) m) x = mapGet m x := by
  induction l with
  | nil => intro m x _; rfl
  | cons sch rest ih =>
      intro m x hall
      simp only [List.foldl_cons]
      rw [ih (fun s hs => hall s (List.mem_cons_of_mem sch hs)),
        mapGet_filter_ne (hall sch (List.mem_cons_self sch rest))]

theorem foldl_push_eq_map (l : List α) (f : α → β) :
    ∀ acc : List β, l.foldl (fun r e => r ++ [f e]) acc = acc ++ l.map f := by
  induction l with
  | nil => intro acc; simp
  | cons e rest ih =>
      intro acc
      simp only [List.foldl_cons, List.map_cons]
      rw [ih]
      simp

theorem pair_eq_of_nodup_keys {m : List (Nat × α)} {p q : Nat × α}
    (hnd : (m.map (fun r => r.1)).Nodup) (hp : p ∈ m) (hq : q ∈ m)
    (h : p.1 = q.1) : p = q :=
  List.inj_on_of_nodup_map hnd hp hq h

theorem pair_eq_of_nodup_entryIds {m : List (Nat × Schedule)} {p q : Nat × Schedule}
    (hnd : (m.map (fun r => r.2.entryId)).Nodup) (hp : p ∈ m) (hq : q ∈ m)
    (h : p.2.entryId = q.2.entryId) : p = q :=
  List.inj_on_of_nodup_map hnd hp hq h

/-! ### Preservation of the invariant -/

theorem inv_congr (s : MemStorage) {s' : MemStorage}
    (he : s'.entries = s.entries) (hs : s'.schedules = s.schedules)
    (hec : s'.entryIdCounter = s.entryIdCounter)
    (hsc : s'.scheduleIdCounter = s.scheduleIdCounter)
    (hInv : Inv s) : Inv s' := by
  obtain ⟨k1, k2, k3, k4, k5, k6, k7⟩ := hInv
  constructor
  · intro p hp
    rw [he] at hp
    rw [hec]
    exact k1 p hp
  · rw [he]; exact k2
  · intro p hp
    rw [hs] at hp
    rw [hsc]
    exact k3 p hp
  · rw [hs]; exact k4
  · intro p hp
    rw [hs] at hp
    rw [he]
    exact k5 p hp
  · rw [hs]; exact k6
  · intro p hp
    rw [he] at hp
    rw [hs]
    exact k7 p hp

theorem inv_seedStore : Inv seedStore :=
  ⟨by decide, by decide, by decide, by decide, by decide, by decide, by decide⟩

theorem inv_createUser (s : MemStorage) (iu : InsertUser) (h : Inv s) :
    Inv (createUser s iu).2 :=
  inv_congr s rfl rfl rfl rfl h

theorem inv_createCategory (s : MemStorage) (ic : InsertCategory) (h : Inv s) :
    Inv (createCategory s ic).2 :=
  inv_congr s rfl rfl rfl rfl h

theorem inv_deleteCategory (s : MemStorage) (id : Nat) (h : Inv s) :
    Inv (deleteCategory s id).2 :=
  inv_congr s rfl rfl rfl rfl h

theorem inv_createContact (s : MemStorage) (ic : InsertContact) (h : Inv s) :
    Inv (createContact s ic).2 :=
  inv_congr s rfl rfl rfl rfl h

theorem inv_updateContact (s : MemStorage) (id : Nat) (p : ContactPatch) (h : Inv s) :
    Inv (updateContact s id p).2 := by
  unfold updateContact
  cases hc : mapGet s.contacts id with
  | none => exact h
  | some c => exact inv_congr s rfl rfl rfl rfl h

theorem inv_deleteContact (s : MemStorage) (id : Nat) (h : Inv s) :
    Inv (deleteContact s id).2 :=
  inv_congr s rfl rfl rfl rfl h

theorem inv_createEntry (s : MemStorage) (ie : InsertEntry) (now : Nat)
    (hvis : jsOrStr ie.visibility "private" ≠ "scheduled") (h : Inv s) :
    Inv (createEntry s ie now).2 := by
  refine ⟨?_, ?_, ?_, ?_, ?_, ?_, ?_⟩
  · intro p hp
    rcases mem_mapSet_elim hp with hp | ⟨hp, _⟩
    · subst hp
      exact ⟨rfl, Nat.lt_succ_self _⟩
    · obtain ⟨h1, h2⟩ := h.entryKeys p hp
      exact ⟨h1, Nat.lt_succ_of_lt h2⟩
  · exact keys_mapSet_nodup h.entryNodup
  · exact h.schedKeys
  · exact h.schedNodup
  · intro p hp
    have hlt : p.2.entryId < s.entryIdCounter := by
      rcases Option.isSome_iff_exists.mp (h.schedEntry p hp) with ⟨e, he⟩
      have hmem := mapGet_mem he
      obtain ⟨_, h2⟩ := h.entryKeys _ hmem
      exact h2
    have hne : p.2.entryId ≠ s.entryIdCounter := Nat.ne_of_lt hlt
    have := mapGet_mapSet s.entries s.entryIdCounter (createEntry s ie now).1 p.2.entryId
    rw [if_neg hne] at this
    show (mapGet (mapSet s.entries s.entryIdCounter (createEntry s ie now).1) p.2.entryId).isSome
    rw [this]
    exact h.schedEntry p hp
  · exact h.schedOne
  · intro p hp
    rcases mem_mapSet_elim hp with hp | ⟨hp, _⟩
    · subst hp
      constructor
      · intro hv
        exact absurd hv hvis
      · rintro ⟨q, hq, he⟩
        have hlt : q.2.entryId < s.entryIdCounter := by
          rcases Option.isSome_iff_exists.mp (h.schedEntry q hq) with ⟨e, hge⟩
          exact (h.entryKeys _ (mapGet_mem hge)).2
        rw [he] at hlt
        exact absurd rfl (Nat.ne_of_lt hlt)
    · exact h.sync p hp

theorem inv_updateEntry (s : MemStorage) (id : Nat) (p : EntryPatch)
    (hpid : p.id = none) (hpvis : p.visibility = none) (h : Inv s) :
    Inv (updateEntry s id p).2 := by
  unfold updateEntry
  cases hc : mapGet s.entries id with
  | none => exact h
  | some e =>
      have hmem : (id, e) ∈ s.entries := mapGet_mem hc
      have hkey : e.id = id := (h.entryKeys _ hmem).1
      have hlt : id < s.entryIdCounter := (h.entryKeys _ hmem).2
      have hmid : (mergeEntry e p).id = e.id := by
        unfold mergeEntry
        rw [hpid]
        rfl
      have hmvis : (mergeEntry e p).visibility = e.visibility := by
        unfold mergeEntry
        rw [hpvis]
        rfl
      refine ⟨?_, ?_, ?_, ?_, ?_, ?_, ?_⟩
      · intro q hq
        rcases mem_mapSet_elim hq with hq | ⟨hq, _⟩
        · subst hq
          exact ⟨by rw [hmid, hkey], hlt⟩
        · exact h.entryKeys q hq
      · exact keys_mapSet_nodup h.entryNodup
      · exact h.schedKeys
      · exact h.schedNodup
      · intro q hq
        show (mapGet (mapSet s.entries id (mergeEntry e p)) q.2.entryId).isSome
        rw [mapGet_mapSet]
        by_cases he : q.2.entryId = id
        · rw [if_pos he]; rfl
        · rw [if_neg he]; exact h.schedEntry q hq
      · exact h.schedOne
      · intro q hq
        rcases mem_mapSet_elim hq with hq | ⟨hq, _⟩
        · subst hq
          have := h.sync (id, e) hmem
          rw [hmvis, hmid]
          exact this
        · exact h.sync q hq

theorem inv_deleteEntry (s : MemStorage) (id : Nat) (h : Inv s) :
    Inv (deleteEntry s id).2 := by
  have hmatch : ∀ q : Nat × Schedule, q ∈ s.schedules → q.2.entryId = id →
      q.2 ∈ (s.schedules.map (fun r => r.2)).filter (fun sch => sch.entryId = id) := by
    intro q hq he
    exact List.mem_filter.mpr ⟨List.mem_map_of_mem (fun r => r.2) hq, by simp [he]⟩
  have hsubSched : ∀ q : Nat × Schedule, q ∈ (deleteEntry s id).2.schedules →
      q ∈ s.schedules ∧ q.2.entryId ≠ id := by
    intro q hq
    obtain ⟨hq1, hq2⟩ := mem_foldlDel.mp hq
    refine ⟨hq1, fun he => ?_⟩
    have := hq2 q.2 (hmatch q hq1 he)
    exact this (h.schedKeys q hq1).1.symm
  have hsurvive : ∀ q : Nat × Schedule, q ∈ s.schedules → q.2.entryId ≠ id →
      q ∈ (deleteEntry s id).2.schedules := by
    intro q hq hne
    refine mem_foldlDel.mpr ⟨hq, ?_⟩
    intro sch hsch heq
    obtain ⟨hsch1, hsch2⟩ := List.mem_filter.mp hsch
    obtain ⟨r, hr, hrv⟩ := List.mem_map.mp hsch1
    have hrkey : r.2.id = r.1 := (h.schedKeys r hr).1
    have : q = r := pair_eq_of_nodup_keys h.schedNodup hq hr (by rw [heq, ← hrkey, hrv])
    rw [this, hrv] at hne
    simp only [decide_eq_true_eq] at hsch2
    exact hne hsch2
  refine ⟨?_, ?_, ?_, ?_, ?_, ?_, ?_⟩
  · intro q hq
    exact h.entryKeys q (List.mem_filter.mp hq).1
  · exact ((List.filter_sublist s.entries).map (fun p => p.1)).nodup h.entryNodup
  · intro q hq
    exact h.schedKeys q (hsubSched q hq).1
  · exact ((foldlDel_sublist).map (fun p => p.1)).nodup h.schedNodup
  · intro q hq
    obtain ⟨hq1, hne⟩ := hsubSched q hq
    show (mapGet (s.entries.filter (fun p => p.1 ≠ id)) q.2.entryId).isSome
    rw [mapGet_filter_ne hne]
    exact h.schedEntry q hq1
  · exact ((foldlDel_sublist).map (fun p => p.2.entryId)).nodup h.schedOne
  · intro q hq
    obtain ⟨hq1, hq2⟩ := List.mem_filter.mp hq
    simp only [decide_eq_true_eq] at hq2
    have hqid : q.2.id = q.1 := (h.entryKeys q hq1).1
    constructor
    · intro hv
      obtain ⟨r, hr, hre⟩ := (h.sync q hq1).mp hv
      refine ⟨r, hsurvive r hr ?_, hre⟩
      rw [hre, hqid]
      exact hq2
    · rintro ⟨r, hr, hre⟩
      exact (h.sync q hq1).mpr ⟨r, (hsubSched r hr).1, hre⟩

theorem inv_createSchedule (s : MemStorage) (isch : InsertSchedule) (now : Nat)
    (hent : (getEntryById s isch.entryId).isSome)
    (hns : getSchedulesByEntryId s isch.entryId = none) (h : Inv s) :
    Inv (createSchedule s isch now).2 := by
  obtain ⟨e, hc⟩ := Option.isSome_iff_exists.mp hent
  have hcm : mapGet s.entries isch.entryId = some e := hc
  have hmem : (isch.entryId, e) ∈ s.entries := mapGet_mem hc
  have heid : e.id = isch.entryId := (h.entryKeys _ hmem).1
  have helt : isch.entryId < s.entryIdCounter := (h.entryKeys _ hmem).2
  unfold getSchedulesByEntryId at hns
  have hnone : ∀ q : Nat × Schedule, q ∈ s.schedules → q.2.entryId ≠ isch.entryId := by
    intro q hq he
    have := (List.find?_eq_none.mp hns) q.2 (List.mem_map_of_mem (fun r => r.2) hq)
    simp only [decide_eq_true_eq] at this
    exact this he
  unfold createSchedule
  dsimp only
  split
  · rename_i heq
    exact absurd (hc.symm.trans heq) (by simp)
  · rename_i entry heq
    have hee : entry = e := by
      have h2 : some e = some entry := hc.symm.trans heq
      exact ((Option.some.injEq _ _).mp h2).symm
    rw [hee, heid]
    unfold updateEntry
    split
    · rename_i heq2
      have h2 : mapGet s.entries isch.entryId = none := heq2
      rw [hcm] at h2
      cases h2
    · rename_i e2 heq2
      have hee2 : e = e2 := by
        have h2 : mapGet s.entries isch.entryId = some e2 := heq2
        rw [hcm] at h2
        exact (Option.some.injEq _ _).mp h2
      subst hee2
      refine ⟨?_, ?_, ?_, ?_, ?_, ?_, ?_⟩
      · intro q hq
        rcases mem_mapSet_elim hq with hq | ⟨hq, _⟩
        · subst hq
          exact ⟨heid, helt⟩
        · exact h.entryKeys q hq
      · exact keys_mapSet_nodup h.entryNodup
      · intro q hq
        rcases mem_mapSet_elim hq with hq | ⟨hq, _⟩
        · subst hq
          exact ⟨rfl, Nat.lt_succ_self _⟩
        · obtain ⟨h1, h2⟩ := h.schedKeys q hq
          exact ⟨h1, Nat.lt_succ_of_lt h2⟩
      · exact keys_mapSet_nodup h.schedNodup
      · intro q hq
        show (mapGet (mapSet s.entries isch.entryId
          (mergeEntry e { visibility := some "scheduled" })) q.2.entryId).isSome
        rw [mapGet_mapSet]
        by_cases hqe : q.2.entryId = isch.entryId
        · rw [if_pos hqe]; rfl
        · rw [if_neg hqe]
          rcases mem_mapSet_elim hq with hq | ⟨hq, _⟩
          · exfalso
            apply hqe
            subst hq
            rfl
          · exact h.schedEntry q hq
      · have hanys : ¬ s.schedules.any (fun p => p.1 = s.scheduleIdCounter) = true := by
          intro hany
          obtain ⟨q, hq, hqe⟩ := List.any_eq_true.mp hany
          simp only [decide_eq_true_eq] at hqe
          have := (h.schedKeys q hq).2
          rw [hqe] at this
          exact Nat.lt_irrefl _ this
        show ((mapSet s.schedules s.scheduleIdCounter _).map (fun p => p.2.entryId)).Nodup
        unfold mapSet
        rw [if_neg hanys, List.map_append]
        refine List.Nodup.append h.schedOne (List.nodup_singleton _) ?_
        intro a ha hb
        simp only [List.map_cons, List.map_nil, List.mem_singleton] at hb
        obtain ⟨q, hq, hqa⟩ := List.mem_map.mp ha
        apply hnone q hq
        rw [hqa, hb]
      · intro q hq
        rcases mem_mapSet_elim hq with hq | ⟨hq, hqne⟩
        · subst hq
          constructor
          · intro _
            exact ⟨_, self_mem_mapSet, heid.symm⟩
          · intro _
            rfl
        · have hiff := h.sync q hq
          constructor
          · intro hv
            obtain ⟨r, hr, hre⟩ := hiff.mp hv
            have hrne : r.1 ≠ s.scheduleIdCounter :=
              Nat.ne_of_lt (h.schedKeys r hr).2
            exact ⟨r, mem_mapSet_of_mem hr hrne, hre⟩
          · rintro ⟨r, hr, hre⟩
            rcases mem_mapSet_elim hr with hr | ⟨hr, _⟩
            · exfalso
              apply hqne
              have hq2 : q.2.id = q.1 := (h.entryKeys q hq).1
              rw [← hq2, ← hre, hr]
            · exact hiff.mpr ⟨r, hr, hre⟩

theorem entryIds_mapSet_replace {m : List (Nat × Schedule)} {k : Nat} {v sch : Schedule}
    (hnd : (m.map (fun p => p.1)).Nodup) (hc : mapGet m k = some sch)
    (hv : v.entryId = sch.entryId) :
    (mapSet m k v).map (fun p => p.2.entryId) = m.map (fun p => p.2.entryId) := by
  have hmem : (k, sch) ∈ m := mapGet_mem hc
  have hany : m.any (fun p => p.1 = k) = true :=
    List.any_eq_true.mpr ⟨(k, sch), hmem, by simp⟩
  unfold mapSet
  rw [if_pos hany, List.map_map]
  refine List.map_congr_left ?_
  intro p hp
  by_cases hpk : p.1 = k
  · have hps : p = (k, sch) := pair_eq_of_nodup_keys hnd hp hmem hpk
    subst hps
    simp [hv]
  · simp [hpk]

theorem exists_entryId_iff_mem {l : List (Nat × Schedule)} {x : Nat} :
    (∃ q ∈ l, q.2.entryId = x) ↔ x ∈ l.map (fun p => p.2.entryId) := by
  rw [List.mem_map]

theorem inv_updateSchedule (s : MemStorage) (id : Nat) (p : SchedulePatch)
    (hpid : p.id = none) (hpeid : p.entryId = none) (h : Inv s) :
    Inv (updateSchedule s id p).2 := by
  unfold updateSchedule
  cases hc : mapGet s.schedules id with
  | none => exact h
  | some sch =>
      have hmem : (id, sch) ∈ s.schedules := mapGet_mem hc
      have hkey : sch.id = id := (h.schedKeys _ hmem).1
      have hlt : id < s.scheduleIdCounter := (h.schedKeys _ hmem).2
      have hmid : (mergeSchedule sch p).id = sch.id := by
        unfold mergeSchedule
        rw [hpid]
        rfl
      have hmeid : (mergeSchedule sch p).entryId = sch.entryId := by
        unfold mergeSchedule
        rw [hpeid]
        rfl
      have hids := entryIds_mapSet_replace h.schedNodup hc hmeid
      refine ⟨?_, ?_, ?_, ?_, ?_, ?_, ?_⟩
      · exact h.entryKeys
      · exact h.entryNodup
      · intro q hq
        rcases mem_mapSet_elim hq with hq | ⟨hq, _⟩
        · subst hq
          exact ⟨by rw [hmid, hkey], hlt⟩
        · exact h.schedKeys q hq
      · exact keys_mapSet_nodup h.schedNodup
      · intro q hq
        rcases mem_mapSet_elim hq with hq | ⟨hq, _⟩
        · subst hq
          show (mapGet s.entries (mergeSchedule sch p).entryId).isSome
          rw [hmeid]
          exact h.schedEntry _ hmem
        · exact h.schedEntry q hq
      · show ((mapSet s.schedules id (mergeSchedule sch p)).map (fun r => r.2.entryId)).Nodup
        rw [hids]
        exact h.schedOne
      · intro q hq
        rw [exists_entryId_iff_mem, hids, ← exists_entryId_iff_mem]
        exact h.sync q hq

theorem deleteSchedule_not_found (s : MemStorage) (id : Nat)
    (hc : getScheduleById s id = none) : deleteSchedule s id = (false, s) := by
  have hcm : mapGet s.schedules id = none := hc
  have hall : ∀ q ∈ s.schedules, q.1 ≠ id := mapGet_eq_none_iff.mp hcm
  have h1 : s.schedules.any (fun p => p.1 = id) = false := by
    rw [List.any_eq_false]
    intro q hq
    simp [hall q hq]
  have h2 : s.schedules.filter (fun p => p.1 ≠ id) = s.schedules := by
    rw [List.filter_eq_self]
    intro q hq
    simp [hall q hq]
  unfold deleteSchedule
  rw [hcm]
  dsimp only
  unfold mapDelete
  dsimp only
  rw [h1, h2]

theorem inv_deleteSchedule (s : MemStorage) (id : Nat) (h : Inv s) :
    Inv (deleteSchedule s id).2 := by
  cases hc : mapGet s.schedules id with
  | none =>
      rw [deleteSchedule_not_found s id hc]
      exact h
  | some sch =>
      have hmemS : (id, sch) ∈ s.schedules := mapGet_mem hc
      have hkeyS : sch.id = id := (h.schedKeys _ hmemS).1
      obtain ⟨e, hce⟩ := Option.isSome_iff_exists.mp (h.schedEntry _ hmemS)
      have hmemE : (sch.entryId, e) ∈ s.entries := mapGet_mem hce
      have heidE : e.id = sch.entryId := (h.entryKeys _ hmemE).1
      unfold deleteSchedule
      rw [hc]
      dsimp only
      rw [show getEntryById s sch.entryId = some e from hce]
      dsimp only
      unfold updateEntry
      rw [heidE]
      rw [show mapGet s.entries sch.entryId = some e from hce]
      dsimp only
      refine ⟨?_, ?_, ?_, ?_, ?_, ?_, ?_⟩
      · intro q hq
        rcases mem_mapSet_elim hq with hq | ⟨hq, _⟩
        · subst hq
          exact ⟨heidE, (h.entryKeys _ hmemE).2⟩
        · exact h.entryKeys q hq
      · exact keys_mapSet_nodup h.entryNodup
      · intro q hq
        exact h.schedKeys q (List.mem_filter.mp hq).1
      · exact ((List.filter_sublist s.schedules).map (fun r => r.1)).nodup h.schedNodup
      · intro q hq
        have hq1 := (List.mem_filter.mp hq).1
        show (mapGet (mapSet s.entries sch.entryId
          (mergeEntry e { visibility := some "private" })) q.2.entryId).isSome
        rw [mapGet_mapSet]
        by_cases hqe : q.2.entryId = sch.entryId
        · rw [if_pos hqe]; rfl
        · rw [if_neg hqe]
          exact h.schedEntry q hq1
      · exact ((List.filter_sublist s.schedules).map (fun r => r.2.entryId)).nodup h.schedOne
      · intro q hq
        rcases mem_mapSet_elim hq with hq | ⟨hq, hqne⟩
        · subst hq
          constructor
          · intro hv
            exact absurd (show ("private" : String) = "scheduled" from hv) (by decide)
          · rintro ⟨r, hr, hre⟩
            obtain ⟨hr1, hr2⟩ := List.mem_filter.mp hr
            simp only [decide_eq_true_eq] at hr2
            have hre2 : r.2.entryId = sch.entryId := hre.trans heidE
            have hrs : r = (id, sch) :=
              pair_eq_of_nodup_entryIds h.schedOne hr1 hmemS hre2
            rw [hrs] at hr2
            exact absurd rfl hr2
        · have hiff := h.sync q hq
          have hq1 : q.2.id = q.1 := (h.entryKeys q hq).1
          constructor
          · intro hv
            obtain ⟨r, hr, hre⟩ := hiff.mp hv
            have hrne : r.1 ≠ id := by
              intro hrid
              have hrs : r = (id, sch) :=
                pair_eq_of_nodup_keys h.schedNodup hr hmemS hrid
              rw [hrs] at hre
              apply hqne
              rw [← hq1, ← hre]
            exact ⟨r, List.mem_filter.mpr ⟨hr, by simp [hrne]⟩, hre⟩
          · rintro ⟨r, hr, hre⟩
            exact hiff.mpr ⟨r, (List.mem_filter.mp hr).1, hre⟩

theorem goodReach_inv {s : MemStorage} (h : GoodReach s) : Inv s := by
  induction h with
  | seed => exact inv_seedStore
  | stepCreateUser iu _ ih => exact inv_createUser _ iu ih
  | stepCreateCategory ic _ ih => exact inv_createCategory _ ic ih
  | stepDeleteCategory id _ ih => exact inv_deleteCategory _ id ih
  | stepCreateEntry ie now _ hvis ih => exact inv_createEntry _ ie now hvis ih
  | stepUpdateEntry id p _ hpid hpvis ih => exact inv_updateEntry _ id p hpid hpvis ih
  | stepDeleteEntry id _ ih => exact inv_deleteEntry _ id ih
  | stepCreateContact ic _ ih => exact inv_createContact _ ic ih
  | stepUpdateContact id p _ ih => exact inv_updateContact _ id p ih
  | stepDeleteContact id _ ih => exact inv_deleteContact _ id ih
  | stepCreateSchedule isch now _ hent hns ih => exact inv_createSchedule _ isch now hent hns ih
  | stepUpdateSchedule id p _ hpid hpeid ih => exact inv_updateSchedule _ id p hpid hpeid ih
  | stepDeleteSchedule id _ ih => exact inv_deleteSchedule _ id ih

/-! ### Equation lemmas for the schedule coordinator -/

theorem createSchedule_found (s : MemStorage) (isch : InsertSchedule) (now : Nat)
    (e : Entry) (hc : mapGet s.entries isch.entryId = some e)
    (hid : e.id = isch.entryId) :
    createSchedule s isch now =
      ({ id := s.scheduleIdCounter, entryId := isch.entryId, contactId := isch.contactId,
         deliveryDate := isch.deliveryDate, status := "pending",
         reminderEnabled := isch.reminderEnabled, createdAt := now },
       { s with
         entries := mapSet s.entries isch.entryId
           (mergeEntry e { visibility := some "scheduled" }),
         schedules := mapSet s.schedules s.scheduleIdCounter
           { id := s.scheduleIdCounter, entryId := isch.entryId, contactId := isch.contactId,
             deliveryDate := isch.deliveryDate, status := "pending",
             reminderEnabled := isch.reminderEnabled, createdAt := now },
         scheduleIdCounter := s.scheduleIdCounter + 1 }) := by
  have hg : ∀ m c, getEntryById { s with schedules := m, scheduleIdCounter := c }
      isch.entryId = some e :=
    fun _ _ => hc
  unfold createSchedule
  dsimp only
  rw [hg]
  dsimp only
  rw [hid]
  unfold updateEntry
  rw [show (∀ m c, mapGet ({ s with schedules := m, scheduleIdCounter := c }
      : MemStorage).entries isch.entryId = some e) from fun _ _ => hc]

theorem deleteSchedule_found_state (s : MemStorage) (id : Nat) (sch : Schedule) (e : Entry)
    (hc : mapGet s.schedules id = some sch)
    (hce : mapGet s.entries sch.entryId = some e)
    (hid : e.id = sch.entryId) :
    (deleteSchedule s id).2 =
      { s with
        entries := mapSet s.entries sch.entryId
          (mergeEntry e { visibility := some "private" }),
        schedules := s.schedules.filter (fun p => p.1 ≠ id) } := by
  unfold deleteSchedule
  rw [hc]
  dsimp only
  rw [show getEntryById s sch.entryId = some e from hce]
  dsimp only
  unfold updateEntry
  rw [hid]
  rw [hce]
  dsimp only
  unfold mapDelete
  dsimp only

/-! ### Composer lemmas -/

theorem getEntriesWithSchedules_eq_map (s : MemStorage) (u : Nat) :
    getEntriesWithSchedules s u = (getEntries s u).map (fun e => composeEntry s e) := by
  unfold getEntriesWithSchedules
  rw [foldl_push_eq_map]
  rfl

theorem composeEntry_eq (s : MemStorage) (e : Entry) :
    composeEntry s e =
      { entry := e
        schedule := (getSchedulesByEntryId s e.id).map (fun sch =>
          { schedule := sch, contact := getContactById s sch.contactId }) } := by
  unfold composeEntry
  cases getSchedulesByEntryId s e.id <;> rfl

/-! ### Counter framing and id monotonicity -/

theorem ctr_updateEntry (s : MemStorage) (id : Nat) (p : EntryPatch) :
    (updateEntry s id p).2.userIdCounter = s.userIdCounter ∧
    (updateEntry s id p).2.categoryIdCounter = s.categoryIdCounter ∧
    (updateEntry s id p).2.entryIdCounter = s.entryIdCounter ∧
    (updateEntry s id p).2.contactIdCounter = s.contactIdCounter ∧
    (updateEntry s id p).2.scheduleIdCounter = s.scheduleIdCounter := by
  unfold updateEntry
  cases mapGet s.entries id <;> exact ⟨rfl, rfl, rfl, rfl, rfl⟩

theorem ctr_updateContact (s : MemStorage) (id : Nat) (p : ContactPatch) :
    (updateContact s id p).2.userIdCounter = s.userIdCounter ∧
    (updateContact s id p).2.categoryIdCounter = s.categoryIdCounter ∧
    (updateContact s id p).2.entryIdCounter = s.entryIdCounter ∧
    (updateContact s id p).2.contactIdCounter = s.contactIdCounter ∧
    (updateContact s id p).2.scheduleIdCounter = s.scheduleIdCounter := by
  unfold updateContact
  cases mapGet s.contacts id <;> exact ⟨rfl, rfl, rfl, rfl, rfl⟩

theorem ctr_updateSchedule (s : MemStorage) (id : Nat) (p : SchedulePatch) :
    (updateSchedule s id p).2.userIdCounter = s.userIdCounter ∧
    (updateSchedule s id p).2.categoryIdCounter = s.categoryIdCounter ∧
    (updateSchedule s id p).2.entryIdCounter = s.entryIdCounter ∧
    (updateSchedule s id p).2.contactIdCounter = s.contactIdCounter ∧
    (updateSchedule s id p).2.scheduleIdCounter = s.scheduleIdCounter := by
  unfold updateSchedule
  cases mapGet s.schedules id <;> exact ⟨rfl, rfl, rfl, rfl, rfl⟩

theorem ctr_deleteSchedule (s : MemStorage) (id : Nat) :
    (deleteSchedule s id).2.userIdCounter = s.userIdCounter ∧
    (deleteSchedule s id).2.categoryIdCounter = s.categoryIdCounter ∧
    (deleteSchedule s id).2.entryIdCounter = s.entryIdCounter ∧
    (deleteSchedule s id).2.contactIdCounter = s.contactIdCounter ∧
    (deleteSchedule s id).2.scheduleIdCounter = s.scheduleIdCounter := by
  unfold deleteSchedule
  cases mapGet s.schedules id with
  | none => exact ⟨rfl, rfl, rfl, rfl, rfl⟩
  | some sch =>
      dsimp only
      cases getEntryById s sch.entryId with
      | none => exact ⟨rfl, rfl, rfl, rfl, rfl⟩
      | some entry =>
          dsimp only
          obtain ⟨c1, c2, c3, c4, c5⟩ := ctr_updateEntry s entry.id
            { visibility := some "private" }
          exact ⟨c1, c2, c3, c4, c5⟩

theorem ctr_createSchedule (s : MemStorage) (isch : InsertSchedule) (now : Nat) :
    (createSchedule s isch now).2.userIdCounter = s.userIdCounter ∧
    (createSchedule s isch now).2.categoryIdCounter = s.categoryIdCounter ∧
    (createSchedule s isch now).2.entryIdCounter = s.entryIdCounter ∧
    (createSchedule s isch now).2.contactIdCounter = s.contactIdCounter ∧
    (createSchedule s isch now).2.scheduleIdCounter = s.scheduleIdCounter + 1 := by
  unfold createSchedule
  dsimp only
  split
  · exact ⟨rfl, rfl, rfl, rfl, rfl⟩
  · obtain ⟨c1, c2, c3, c4, c5⟩ := ctr_updateEntry
      { s with
        schedules := mapSet s.schedules s.scheduleIdCounter
          { id := s.scheduleIdCounter, entryId := isch.entryId, contactId := isch.contactId,
            deliveryDate := isch.deliveryDate, status := "pending",
            reminderEnabled := isch.reminderEnabled, createdAt := now },
        scheduleIdCounter := s.scheduleIdCounter + 1 } _ { visibility := some "scheduled" }
    exact ⟨c1, c2, c3, c4, c5⟩

/-- Created ids are pairwise increasing, all bounded below by the counter. -/
def incFrom (c : Nat) (l : List Nat) : Prop :=
  l.Pairwise (fun a b => a < b) ∧ ∀ i ∈ l, c ≤ i

theorem incFrom_nil {c : Nat} : incFrom c [] :=
  ⟨List.Pairwise.nil, fun i hi => absurd hi (List.not_mem_nil i)⟩

theorem incFrom_cons {c : Nat} {l : List Nat} (h : incFrom (c + 1) l) :
    incFrom c (c :: l) := by
  obtain ⟨hp, hb⟩ := h
  refine ⟨List.Pairwise.cons ?_ hp, ?_⟩
  · intro i hi
    exact Nat.lt_of_succ_le (hb i hi)
  · intro i hi
    rcases List.mem_cons.mp hi with h | h
    · rw [h]
    · exact Nat.le_of_succ_le (hb i h)

theorem runOps_inc (ops : List StoreOp) : ∀ s : MemStorage,
    incFrom s.userIdCounter (runOps s ops).1.userIds ∧
    incFrom s.categoryIdCounter (runOps s ops).1.categoryIds ∧
    incFrom s.entryIdCounter (runOps s ops).1.entryIds ∧
    incFrom s.contactIdCounter (runOps s ops).1.contactIds ∧
    incFrom s.scheduleIdCounter (runOps s ops).1.scheduleIds := by
  induction ops with
  | nil =>
      intro s
      exact ⟨incFrom_nil, incFrom_nil, incFrom_nil, incFrom_nil, incFrom_nil⟩
  | cons op rest ih =>
      intro s
      cases op with
      | createUserOp iu =>
          obtain ⟨i1, i2, i3, i4, i5⟩ := ih (createUser s iu).2
          exact ⟨incFrom_cons i1, i2, i3, i4, i5⟩
      | createCategoryOp ic =>
          obtain ⟨i1, i2, i3, i4, i5⟩ := ih (createCategory s ic).2
          exact ⟨i1, incFrom_cons i2, i3, i4, i5⟩
      | deleteCategoryOp id =>
          exact ih (deleteCategory s id).2
      | createEntryOp ie now =>
          obtain ⟨i1, i2, i3, i4, i5⟩ := ih (createEntry s ie now).2
          exact ⟨i1, i2, incFrom_cons i3, i4, i5⟩
      | updateEntryOp id p =>
          obtain ⟨c1, c2, c3, c4, c5⟩ := ctr_updateEntry s id p
          obtain ⟨i1, i2, i3, i4, i5⟩ := ih (updateEntry s id p).2
          exact ⟨c1 ▸ i1, c2 ▸ i2, c3 ▸ i3, c4 ▸ i4, c5 ▸ i5⟩
      | deleteEntryOp id =>
          exact ih (deleteEntry s id).2
      | createContactOp ic =>
          obtain ⟨i1, i2, i3, i4, i5⟩ := ih (createContact s ic).2
          exact ⟨i1, i2, i3, incFrom_cons i4, i5⟩
      | updateContactOp id p =>
          obtain ⟨c1, c2, c3, c4, c5⟩ := ctr_updateContact s id p
          obtain ⟨i1, i2, i3, i4, i5⟩ := ih (updateContact s id p).2
          exact ⟨c1 ▸ i1, c2 ▸ i2, c3 ▸ i3, c4 ▸ i4, c5 ▸ i5⟩
      | deleteContactOp id =>
          exact ih (deleteContact s id).2
      | createScheduleOp isch now =>
          obtain ⟨i1, i2, i3, i4, i5⟩ := ih (createSchedule s isch now).2
          obtain ⟨c1, c2, c3, c4, c5⟩ := ctr_createSchedule s isch now
          have hid : (createSchedule s isch now).1.id = s.scheduleIdCounter := by
            unfold createSchedule
            dsimp only
            split <;> rfl
          refine ⟨c1 ▸ i1, c2 ▸ i2, c3 ▸ i3, c4 ▸ i4, ?_⟩
          show incFrom s.scheduleIdCounter ((createSchedule s isch now).1.id
            :: (runOps (createSchedule s isch now).2 rest).1.scheduleIds)
          rw [hid]
          exact incFrom_cons (c5 ▸ i5)
      | updateScheduleOp id p =>
          obtain ⟨c1, c2, c3, c4, c5⟩ := ctr_updateSchedule s id p
          obtain ⟨i1, i2, i3, i4, i5⟩ := ih (updateSchedule s id p).2
          exact ⟨c1 ▸ i1, c2 ▸ i2, c3 ▸ i3, c4 ▸ i4, c5 ▸ i5⟩
      | deleteScheduleOp id =>
          obtain ⟨c1, c2, c3, c4, c5⟩ := ctr_deleteSchedule s id
          obtain ⟨i1, i2, i3, i4, i5⟩ := ih (deleteSchedule s id).2
          exact ⟨c1 ▸ i1, c2 ▸ i2, c3 ▸ i3, c4 ▸ i4, c5 ▸ i5⟩

/-! ### Concrete fixtures for counterexamples and witnesses -/

/-- A plain text insert for user 1. -/
def insPlain : InsertEntry := { userId := some 1, title := "t", type := "text" }

/-- An insert that sets visibility to scheduled directly at creation. -/
def insScheduledVis : InsertEntry :=
  { userId := some 1, title := "t", type := "text", visibility := some "scheduled" }

/-- A schedule insert targeting entry 1 and contact 1. -/
def insSched1 : InsertSchedule := { entryId := 1, contactId := 1, deliveryDate := 5 }

/-- A schedule insert targeting entry 1 and the nonexistent contact 42. -/
def insSched42 : InsertSchedule := { entryId := 1, contactId := 42, deliveryDate := 5 }

/-- The store after creating one plain entry and scheduling it to contact 1. -/
def storeEntrySched : MemStorage :=
  (createSchedule (createEntry seedStore insPlain 0).2 insSched1 7).2

/-- The store after creating one plain entry and scheduling it to the
nonexistent contact 42. -/
def storeEntrySched42 : MemStorage :=
  (createSchedule (createEntry seedStore insPlain 0).2 insSched42 7).2

/-- The schedule record living in storeEntrySched. -/
def schedRec1 : Schedule :=
  { id := 1, entryId := 1, contactId := 1, deliveryDate := 5, status := "pending",
    reminderEnabled := none, createdAt := 7 }

/-- The entry record of storeEntrySched42 after the visibility flip. -/
def entryRecSched : Entry :=
  { id := 1, userId := 1, title := "t", content := none, mediaUrl := none,
    type := "text", visibility := "scheduled", categoryId := none,
    metadata := none, createdAt := 0 }

/-- The embedded schedule-with-contact view of storeEntrySched42. -/
def swc42 : ScheduleWithContact :=
  { schedule := { id := 1, entryId := 1, contactId := 42, deliveryDate := 5,
                  status := "pending", reminderEnabled := none, createdAt := 7 },
    contact := none }

/-! ### The claims -/

/-- Claim C1, counterexample: the claim as stated fails on the code. From the
seeded store, a single createEntry call whose insert carries visibility
scheduled reaches a state with an entry of visibility scheduled although no
schedule record references it, so the stated iff does not hold in every
reachable state. -/
theorem c1_sync_counterexample :
    ¬ entrySync (applyOps seedStore [StoreOp.createEntryOp insScheduledVis 0]) := by
  decide

/-- Claim C1, amended: in every store state reachable from the seeded store by
the interface operations restricted so that visibility is never written
directly (createEntry never supplies effective visibility scheduled,
updateEntry patches neither id nor visibility), updateSchedule patches neither
id nor entryId, and createSchedule is invoked only for an existing entry that
has no schedule yet, an entry has visibility scheduled iff some schedule
record has entryId equal to the id of that entry. -/
theorem c1_sync_guarded {s : MemStorage} (h : GoodReach s) : entrySync s :=
  (goodReach_inv h).sync

/-- Witness for C1: the guarded reachability hypothesis discharged at a
concrete two-step run. -/
theorem c1_sync_guarded_witness : entrySync storeEntrySched :=
  c1_sync_guarded
    (GoodReach.stepCreateSchedule insSched1 7
      (GoodReach.stepCreateEntry insPlain 0 GoodReach.seed (by decide))
      (by decide) (by decide))

/-- Claim C2: for an entry stored under its own id with visibility private,
createSchedule with that entryId makes getEntryById report visibility
scheduled, and deleteSchedule on the id of the schedule just returned makes
getEntryById report visibility private again. -/
theorem c2_visibility_roundtrip (s : MemStorage) (e : Entry) (isch : InsertSchedule)
    (now : Nat) (hmem : getEntryById s e.id = some e)
    (_hvis : e.visibility = "private") (heid : isch.entryId = e.id) :
    ((getEntryById (createSchedule s isch now).2 e.id).map Entry.visibility
      = some "scheduled") ∧
    ((getEntryById (deleteSchedule (createSchedule s isch now).2
        (createSchedule s isch now).1.id).2 e.id).map Entry.visibility
      = some "private") := by
  have hc : mapGet s.entries isch.entryId = some e := by
    rw [heid]
    exact hmem
  have hid : e.id = isch.entryId := heid.symm
  rw [createSchedule_found s isch now e hc hid]
  dsimp only
  constructor
  · show (mapGet (mapSet s.entries isch.entryId
      (mergeEntry e { visibility := some "scheduled" })) e.id).map Entry.visibility
      = some "scheduled"
    rw [mapGet_mapSet, if_pos hid]
    rfl
  · have hc2 : mapGet (mapSet s.schedules s.scheduleIdCounter
        { id := s.scheduleIdCounter, entryId := isch.entryId, contactId := isch.contactId,
          deliveryDate := isch.deliveryDate, status := "pending",
          reminderEnabled := isch.reminderEnabled, createdAt := now }) s.scheduleIdCounter
        = some { id := s.scheduleIdCounter, entryId := isch.entryId,
                 contactId := isch.contactId, deliveryDate := isch.deliveryDate,
                 status := "pending", reminderEnabled := isch.reminderEnabled,
                 createdAt := now } := by
      rw [mapGet_mapSet, if_pos rfl]
    have hce2 : mapGet (mapSet s.entries isch.entryId
        (mergeEntry e { visibility := some "scheduled" })) isch.entryId
        = some (mergeEntry e { visibility := some "scheduled" }) := by
      rw [mapGet_mapSet, if_pos rfl]
    have hid2 : (mergeEntry e { visibility := some "scheduled" }).id = isch.entryId := hid
    rw [deleteSchedule_found_state _ _ _ _ hc2 hce2 hid2]
    dsimp only
    show (mapGet (mapSet (mapSet s.entries isch.entryId
        (mergeEntry e { visibility := some "scheduled" })) isch.entryId
        (mergeEntry (mergeEntry e { visibility := some "scheduled" })
          { visibility := some "private" })) e.id).map Entry.visibility
      = some "private"
    rw [mapGet_mapSet, if_pos hid]
    rfl

/-- Witness for C2 at a concrete entry and schedule. -/
theorem c2_visibility_roundtrip_witness :
    ((getEntryById (createSchedule (createEntry seedStore insPlain 0).2 insSched1 7).2
        (createEntry seedStore insPlain 0).1.id).map Entry.visibility
      = some "scheduled") ∧
    ((getEntryById (deleteSchedule
        (createSchedule (createEntry seedStore insPlain 0).2 insSched1 7).2
        (createSchedule (createEntry seedStore insPlain 0).2 insSched1 7).1.id).2
        (createEntry seedStore insPlain 0).1.id).map Entry.visibility
      = some "private") :=
  c2_visibility_roundtrip (createEntry seedStore insPlain 0).2
    (createEntry seedStore insPlain 0).1 insSched1 7 (by decide) (by decide) (by decide)

/-- Claim C3, counterexample: the claim as stated fails on the code. After
updateSchedule patches the id field of a schedule record, deleteEntry deletes
cascading schedules by the recorded id field, misses the patched record, and a
schedule whose entryId equals the deleted entry id survives the delete. -/
theorem c3_cascade_counterexample :
    ((applyOps seedStore [StoreOp.createEntryOp insPlain 0,
        StoreOp.createScheduleOp insSched1 0,
        StoreOp.updateScheduleOp 1 { id := some 99 },
        StoreOp.deleteEntryOp 1]).schedules.map (fun q => q.2.entryId) = [1]) ∧
    getEntryById (applyOps seedStore [StoreOp.createEntryOp insPlain 0,
        StoreOp.createScheduleOp insSched1 0,
        StoreOp.updateScheduleOp 1 { id := some 99 },
        StoreOp.deleteEntryOp 1]) 1 = none := by
  decide

/-- Claim C3, amended: in every store state in which each stored schedule has
its record id equal to its map key (true of all states reached without
patching a schedule id), after deleteEntry no schedule with entryId equal to
the deleted id remains, and every schedule that referenced the deleted entry
is afterwards absent under its id. -/
theorem c3_cascade_on_delete (s : MemStorage) (eid : Nat)
    (hkeys : ∀ p ∈ s.schedules, (p : Nat × Schedule).2.id = p.1) :
    (∀ q ∈ (deleteEntry s eid).2.schedules, (q : Nat × Schedule).2.entryId ≠ eid) ∧
    (∀ p ∈ s.schedules, (p : Nat × Schedule).2.entryId = eid →
      getScheduleById (deleteEntry s eid).2 p.2.id = none) := by
  have hmatch : ∀ q : Nat × Schedule, q ∈ s.schedules → q.2.entryId = eid →
      q.2 ∈ (s.schedules.map (fun r => r.2)).filter (fun sch => sch.entryId = eid) := by
    intro q hq he
    exact List.mem_filter.mpr ⟨List.mem_map_of_mem (fun r => r.2) hq, by simp [he]⟩
  constructor
  · intro q hq he
    obtain ⟨hq1, hq2⟩ := mem_foldlDel.mp hq
    exact hq2 q.2 (hmatch q hq1 he) (hkeys q hq1).symm
  · intro p hp he
    show mapGet _ p.2.id = none
    rw [mapGet_eq_none_iff]
    intro r hr
    obtain ⟨hr1, hr2⟩ := mem_foldlDel.mp hr
    exact hr2 p.2 (hmatch p hp he)

/-- Witness for C3 at a concrete store with one schedule stored under its id. -/
theorem c3_cascade_on_delete_witness :
    ((1, schedRec1) ∈ storeEntrySched.schedules) ∧ (schedRec1.entryId = 1) ∧
    getScheduleById (deleteEntry storeEntrySched 1).2 schedRec1.id = none :=
  ⟨by decide, rfl,
    (c3_cascade_on_delete storeEntrySched 1 (by decide)).2 (1, schedRec1) (by decide) rfl⟩

/-- Claim C4: for every sequence of interface calls starting from the seeded
store, the ids returned by the create calls of each entity type are pairwise
strictly increasing, hence never repeated even across interleaved deletes, and
all positive. -/
theorem c4_ids_monotone (ops : List StoreOp) :
    ((runOps seedStore ops).1.userIds.Pairwise (fun a b => a < b) ∧
      ∀ i ∈ (runOps seedStore ops).1.userIds, 0 < i) ∧
    ((runOps seedStore ops).1.categoryIds.Pairwise (fun a b => a < b) ∧
      ∀ i ∈ (runOps seedStore ops).1.categoryIds, 0 < i) ∧
    ((runOps seedStore ops).1.entryIds.Pairwise (fun a b => a < b) ∧
      ∀ i ∈ (runOps seedStore ops).1.entryIds, 0 < i) ∧
    ((runOps seedStore ops).1.contactIds.Pairwise (fun a b => a < b) ∧
      ∀ i ∈ (runOps seedStore ops).1.contactIds, 0 < i) ∧
    ((runOps seedStore ops).1.scheduleIds.Pairwise (fun a b => a < b) ∧
      ∀ i ∈ (runOps seedStore ops).1.scheduleIds, 0 < i) := by
  obtain ⟨h1, h2, h3, h4, h5⟩ := runOps_inc ops seedStore
  have hpos : ∀ (c : Nat) (l : List Nat), incFrom c l → 0 < c → ∀ i ∈ l, 0 < i := by
    intro c l h hc i hi
    exact Nat.lt_of_lt_of_le hc (h.2 i hi)
  exact ⟨⟨h1.1, hpos _ _ h1 (by decide)⟩, ⟨h2.1, hpos _ _ h2 (by decide)⟩,
    ⟨h3.1, hpos _ _ h3 (by decide)⟩, ⟨h4.1, hpos _ _ h4 (by decide)⟩,
    ⟨h5.1, hpos _ _ h5 (by decide)⟩⟩

/-- Witness for C4 at a concrete run creating two entries around a delete. -/
theorem c4_ids_monotone_witness :
    ((runOps seedStore [StoreOp.createEntryOp insPlain 0, StoreOp.deleteEntryOp 1,
        StoreOp.createEntryOp insPlain 0]).1.entryIds.Pairwise (fun a b => a < b)) ∧
    (1 ∈ (runOps seedStore [StoreOp.createEntryOp insPlain 0, StoreOp.deleteEntryOp 1,
        StoreOp.createEntryOp insPlain 0]).1.entryIds) ∧ 0 < 1 :=
  ⟨(c4_ids_monotone [StoreOp.createEntryOp insPlain 0, StoreOp.deleteEntryOp 1,
      StoreOp.createEntryOp insPlain 0]).2.2.1.1,
   by decide,
   (c4_ids_monotone [StoreOp.createEntryOp insPlain 0, StoreOp.deleteEntryOp 1,
      StoreOp.createEntryOp insPlain 0]).2.2.1.2 1 (by decide)⟩

/-- Claim C5, counterexample: the claim as stated fails on the code. Reaching
a state by first creating a schedule for entry id 1 and then creating the
entry that receives id 1, getScheduledEntries returns a record whose embedded
schedule is present but whose visibility is private, so not every returned
record has visibility scheduled. -/
theorem c5_composer_counterexample :
    ¬ ∀ r ∈ getScheduledEntries (applyOps seedStore
        [StoreOp.createScheduleOp insSched1 0, StoreOp.createEntryOp insPlain 0]) 1,
      r.entry.visibility = "scheduled" := by
  decide

/-- Claim C5, amended: in every store state, every record returned by
getScheduledEntries has a present embedded schedule, and every record of
getEntriesWithSchedules not returned by getScheduledEntries has an absent
embedded schedule; when the state additionally satisfies the visibility-sync
invariant, every record returned by getScheduledEntries also has visibility
scheduled. -/
theorem c5_composer_agreement (s : MemStorage) (u : Nat) :
    (∀ r ∈ getScheduledEntries s u, r.schedule.isSome) ∧
    (∀ r ∈ getEntriesWithSchedules s u, r ∉ getScheduledEntries s u →
      r.schedule = none) ∧
    (entrySync s → ∀ r ∈ getScheduledEntries s u,
      r.entry.visibility = "scheduled") := by
  refine ⟨?_, ?_, ?_⟩
  · intro r hr
    exact (List.mem_filter.mp hr).2
  · intro r hr hnot
    rcases hsc : r.schedule with _ | sc
    · rfl
    · exfalso
      apply hnot
      refine List.mem_filter.mpr ⟨hr, ?_⟩
      rw [hsc]
      rfl
  · intro hsync r hr
    obtain ⟨hrg, hrs⟩ := List.mem_filter.mp hr
    rw [getEntriesWithSchedules_eq_map] at hrg
    obtain ⟨e, he, hre⟩ := List.mem_map.mp hrg
    subst hre
    rcases hcs : getSchedulesByEntryId s e.id with _ | sch
    · rw [composeEntry_eq, hcs] at hrs
      simp at hrs
    · have hentry : (composeEntry s e).entry = e := by
        rw [composeEntry_eq]
      rw [hentry]
      unfold getEntries at he
      obtain ⟨hem, _⟩ := List.mem_filter.mp he
      obtain ⟨p, hp, hpe⟩ := List.mem_map.mp hem
      have hpred := List.find?_some hcs
      simp only [decide_eq_true_eq] at hpred
      have hschmem := List.mem_of_find?_eq_some hcs
      obtain ⟨q, hq, hqs⟩ := List.mem_map.mp hschmem
      rw [← hpe]
      refine (hsync p hp).mpr ⟨q, hq, ?_⟩
      rw [hqs, hpe]
      exact hpred

/-- Witness for C5: the sync hypothesis and inner membership discharged at a
concrete scheduled store. -/
theorem c5_composer_agreement_witness :
    entrySync storeEntrySched42 ∧
    ({ entry := entryRecSched, schedule := some swc42 } : EntryWithSchedule)
      ∈ getScheduledEntries storeEntrySched42 1 ∧
    ({ entry := entryRecSched, schedule := some swc42 }
      : EntryWithSchedule).entry.visibility = "scheduled" :=
  ⟨by decide, by decide,
    (c5_composer_agreement storeEntrySched42 1).2.2 (by decide)
      { entry := entryRecSched, schedule := some swc42 } (by decide)⟩

/-- Claim C6: getEntriesWithSchedules returns exactly the map over
getEntries, in the same order, embedding for each entry the schedule found by
getSchedulesByEntryId together with the contact found by its contactId; and
whenever the embedded schedule is present but its contactId matches no
contact, the embedded contact is absent and the result is still produced. -/
theorem c6_composer_shape (s : MemStorage) (u : Nat) :
    getEntriesWithSchedules s u = (getEntries s u).map (fun e =>
      { entry := e
        schedule := (getSchedulesByEntryId s e.id).map (fun sch =>
          { schedule := sch, contact := getContactById s sch.contactId }) }) ∧
    (∀ r ∈ getEntriesWithSchedules s u, ∀ sc, r.schedule = some sc →
      getContactById s sc.schedule.contactId = none → sc.contact = none) := by
  constructor
  · rw [getEntriesWithSchedules_eq_map]
    exact List.map_congr_left (fun e _ => composeEntry_eq s e)
  · intro r hr sc hsc hnc
    rw [getEntriesWithSchedules_eq_map] at hr
    obtain ⟨e, he, hre⟩ := List.mem_map.mp hr
    subst hre
    rw [composeEntry_eq] at hsc
    rcases hcs : getSchedulesByEntryId s e.id with _ | sch
    · rw [hcs] at hsc
      dsimp only at hsc
      cases hsc
    · rw [hcs] at hsc
      dsimp only at hsc
      have hsc2 : ({ schedule := sch, contact := getContactById s sch.contactId }
          : ScheduleWithContact) = sc := (Option.some.injEq _ _).mp hsc
      subst hsc2
      exact hnc

/-- Witness for C6: the missing-contact case discharged at a concrete store
whose schedule names the nonexistent contact 42. -/
theorem c6_composer_shape_witness :
    ({ entry := entryRecSched, schedule := some swc42 } : EntryWithSchedule)
      ∈ getEntriesWithSchedules storeEntrySched42 1 ∧
    getContactById storeEntrySched42 42 = none ∧
    swc42.contact = none :=
  ⟨by decide, by decide,
    (c6_composer_shape storeEntrySched42 1).2
      { entry := entryRecSched, schedule := some swc42 } (by decide) swc42 rfl (by decide)⟩

/-- Claim C7: updateSchedule never modifies the entries map, for any id and
any partial schedule patch, so no entry visibility changes on schedule
update. -/
theorem c7_updateSchedule_frame (s : MemStorage) (id : Nat) (p : SchedulePatch) :
    (updateSchedule s id p).2.entries = s.entries := by
  unfold updateSchedule
  cases mapGet s.schedules id <;> rfl

/-- Claim C8: deleteEntry on an id with no entry returns false and raises no
error, and an immediate second deleteEntry on the same id returns false. -/
theorem c8_delete_absent (s : MemStorage) (id : Nat) :
    (getEntryById s id = none → (deleteEntry s id).1 = false) ∧
    (deleteEntry (deleteEntry s id).2 id).1 = false := by
  constructor
  · intro h
    show s.entries.any (fun p => p.1 = id) = false
    rw [List.any_eq_false]
    intro q hq
    simp [mapGet_eq_none_iff.mp h q hq]
  · show ((deleteEntry s id).2.entries.any (fun p => p.1 = id)) = false
    rw [List.any_eq_false]
    intro q hq
    have h2 := (List.mem_filter.mp hq).2
    simp only [decide_eq_true_eq] at h2 ⊢
    exact h2

/-- Witness for C8 at the seeded store, which has no entries. -/
theorem c8_delete_absent_witness :
    getEntryById seedStore 3 = none ∧ (deleteEntry seedStore 3).1 = false :=
  ⟨by decide, (c8_delete_absent seedStore 3).1 (by decide)⟩

/-- Claim C9: deleteSchedule on an id with no schedule returns false and
leaves the whole store state unchanged. -/
theorem c9_deleteSchedule_noop (s : MemStorage) (id : Nat)
    (h : getScheduleById s id = none) : deleteSchedule s id = (false, s) :=
  deleteSchedule_not_found s id h

/-- Witness for C9 at the seeded store, which has no schedules. -/
theorem c9_deleteSchedule_noop_witness :
    getScheduleById seedStore 4 = none ∧ deleteSchedule seedStore 4 = (false, seedStore) :=
  ⟨by decide, c9_deleteSchedule_noop seedStore 4 (by decide)⟩

/-- Claim C10: createEntry defaults userId to 1 when the insert carries no
userId or carries 0, and uses the supplied userId exactly when it is
non-zero. -/
theorem c10_userId_default (s : MemStorage) (ie : InsertEntry) (now : Nat) :
    ((ie.userId = none ∨ ie.userId = some 0) → (createEntry s ie now).1.userId = 1) ∧
    (∀ u : Nat, ie.userId = some u → u ≠ 0 → (createEntry s ie now).1.userId = u) := by
  constructor
  · rintro (h | h) <;> show jsOrNat ie.userId 1 = 1 <;> rw [h] <;> rfl
  · intro u hu hne
    show jsOrNat ie.userId 1 = u
    rw [hu]
    cases u with
    | zero => exact absurd rfl hne
    | succ n => rfl

/-- Witness for C10 at three concrete inserts. -/
theorem c10_userId_default_witness :
    ((createEntry seedStore { userId := none, title := "a", type := "text" } 0).1.userId
      = 1) ∧
    ((createEntry seedStore { userId := some 0, title := "a", type := "text" } 0).1.userId
      = 1) ∧
    ((createEntry seedStore { userId := some 7, title := "a", type := "text" } 0).1.userId
      = 7) :=
  ⟨(c10_userId_default seedStore _ 0).1 (Or.inl rfl),
   (c10_userId_default seedStore _ 0).1 (Or.inr rfl),
   (c10_userId_default seedStore _ 0).2 7 rfl (by decide)⟩

end Vault
